import Mathlib

/-!
Verification development for `md2zd.py`, a single-file Markdown-to-HTML
pipeline.  The source performs one regular-expression substitution pass
(fenced code-block extraction) followed by calls to three external
collaborators (pygments highlighting, cmarkgfm Markdown rendering, HTML
tidy).  We shallowly embed the substitution pass

    CODE_RE = re.compile(r"^```([a-z]+)?$(.+?)^```$", re.S | re.M)
    CODE_RE.sub(md_codeblock, md)

over `List Char`, with the Python `re` semantics made explicit:
with `re.M`, the anchor `^` matches at offset 0 or just after a newline,
and `$` matches at end of string or just before a newline; with `re.S`
the dot also matches newlines; `(.+?)` is non-greedy, so the body ends at
the first position where the rest of the pattern (a closing line
consisting of exactly three backticks) can match; `re.sub` replaces the
leftmost match, then continues scanning from the end of that match.

External collaborators (pygments, cmarkgfm, tidy) are not part of this
repository; they are modelled as function parameters, with the lexer
lookup modelled from the spec's collaborator contract (lookup by name
fails distinguishably when the name is unknown or absent, and a
plain-text fallback lexer exists).
-/

namespace Md2zd

/-- The backtick character, U+0060. -/
def backtickChar : Char := Char.ofNat 96

/-- Python character class `[a-z]`: ASCII lowercase letters. -/
def isLowerAZ (c : Char) : Bool := decide ('a' ≤ c) && decide (c ≤ 'z')

/-- Anchor `^` of `re.M`: position `a` is at the start of a line
(offset 0, or just after a newline). -/
def lineStartB (s : List Char) (a : Nat) : Bool :=
  (a == 0) || (s.get? (a - 1) == some '\n')

/-- Anchor `$` of `re.M`: position `k` is at the end of a line
(end of string, or just before a newline). -/
def lineEndB (s : List Char) (k : Nat) : Bool :=
  (k == s.length) || (s.get? k == some '\n')

/-- Literal ```` ``` ```` of the pattern: three backticks at offset `a`. -/
def hasTicksAt (s : List Char) (a : Nat) : Bool :=
  (s.get? a == some backtickChar) && (s.get? (a + 1) == some backtickChar)
    && (s.get? (a + 2) == some backtickChar)

/-- Length of the maximal leading run of `[a-z]` characters: what the greedy
group `([a-z]+)?` consumes (it must be followed by `$`, so only the full
run can ever let the rest of the pattern proceed). -/
def runLen : List Char → Nat
  | [] => 0
  | c :: cs => if isLowerAZ c then runLen cs + 1 else 0

/-- Offset of the end of the opening fence line's text: just after
`` ``` `` and the (possibly empty) language-tag run. -/
def openEnd (s : List Char) (a : Nat) : Nat :=
  a + 3 + runLen (s.drop (a + 3))

/-- The language tag captured by group 1 of `CODE_RE`: `none` when the
optional group `([a-z]+)?` did not participate (as Python's
`match.groups()` then yields `None`). -/
def tagAt (s : List Char) (a : Nat) : Option (List Char) :=
  let r := runLen (s.drop (a + 3))
  if r = 0 then none else some ((s.drop (a + 3)).take r)

/-- The slice `s[a:b]` of Python, as a list. -/
def extract (s : List Char) (a b : Nat) : List Char :=
  (s.drop a).take (b - a)

/-- Does the closing part `^```$` of `CODE_RE` match at offset `p`:
a line that consists of exactly three backticks. -/
def closesAtB (s : List Char) (p : Nat) : Bool :=
  lineStartB s p && hasTicksAt s p && lineEndB s (p + 3)

/-- First offset `q ≥ p` (within `fuel` steps) where the closing
`^```$` matches: the non-greedy `(.+?)` stops at the first such
position. -/
def findClose (s : List Char) (p : Nat) : Nat → Option Nat
  | 0 => none
  | fuel + 1 => if closesAtB s p then some p else findClose s (p + 1) fuel

/-- Does the opening part `^```([a-z]+)?$` of `CODE_RE` match a full
opening fence line at offset `a`. -/
def openingLineAtB (s : List Char) (a : Nat) : Bool :=
  lineStartB s a && hasTicksAt s a && lineEndB s (openEnd s a)

/-- One match of `CODE_RE`: group 1 (optional language tag), group 2
(the raw body between the `$` of the opening line and the closing
`` ``` ``), and `stop`, the offset just past the matched span
(Python's `match.end()`). -/
structure PyMatch where
  tag : Option (List Char)
  body : List Char
  stop : Nat
  deriving DecidableEq, Repr

/-- Attempt to match `CODE_RE` at offset `a`: the opening line must match
there, and the non-greedy body ends at the first later offset where a
closing `` ``` `` line matches.  The body starts at `openEnd s a` (it
contains the newline that terminates the opening line), so the search for
the closing line starts at `openEnd s a + 1`, which also enforces the
`+` (at least one character) of `(.+?)`. -/
def matchAt (s : List Char) (a : Nat) : Option PyMatch :=
  if openingLineAtB s a then
    match findClose s (openEnd s a + 1) (s.length + 1) with
    | some p => some ⟨tagAt s a, extract s (openEnd s a) p, p + 3⟩
    | none => none
  else none

/-- Leftmost match of `CODE_RE` at offset `≥ pos`, scanning offsets one
at a time exactly as `re.sub` does. -/
def findMatchAux (s : List Char) (pos : Nat) : Nat → Option (Nat × PyMatch)
  | 0 => none
  | fuel + 1 =>
    match matchAt s pos with
    | some m => some (pos, m)
    | none => findMatchAux s (pos + 1) fuel

/-- Leftmost match of `CODE_RE` at offset `≥ pos` (enough fuel to scan
every offset up to the end of the string). -/
def findMatchFrom (s : List Char) (pos : Nat) : Option (Nat × PyMatch) :=
  findMatchAux s pos (s.length + 1 - pos)

/-- Modelled from the spec: a lexer of the external syntax highlighter
(pygments), an opaque collaborator; either a registered language lexer or
the plain-text fallback `pygments.lexers.TextLexer`. -/
inductive Lexer where
  | byName (name : List Char)
  | text
  deriving DecidableEq, Repr

/-- Modelled from the spec: `pygments.lexers.get_lexer_by_name`, the
collaborator lookup (spec section 6): it fails distinguishably (raising a
`ClassNotFound`, a `ValueError`) when the name is unknown or absent
(Python passes the unparticipating group, `None`, which is falsy), and
succeeds on a registered name.  `registered` is the highlighter's
registry of language names. -/
def get_lexer_by_name (registered : List (List Char)) (lang : Option (List Char)) :
    Except Unit Lexer :=
  match lang with
  | none => .error ()
  | some t => if t ∈ registered then .ok (.byName t) else .error ()

/-- The `try: ... except ValueError: lexer = pygments.lexers.TextLexer()`
of `md_codeblock`: the lexer actually used for a fence. -/
def lexerFor (registered : List (List Char)) (lang : Option (List Char)) : Lexer :=
  match get_lexer_by_name registered lang with
  | .ok l => l
  | .error _ => Lexer.text

/-- Python f-string interpolation of the group-1 value: an absent group is
`None` and interpolates as the four characters `None`. -/
def pyFormat : Option (List Char) → List Char
  | none => "None".data
  | some t => t

/-- Embedding of `md_codeblock` from `md2zd.py`: resolve the lexer (with
plain-text fallback on lookup failure), highlight the body with the fixed
formatter (the external `pygments.highlight` with `FORMATTER` is the
parameter `hlight`), and wrap the result.  The wrapper is the literal
f-string of the source. -/
def md_codeblock (hlight : Lexer → List Char → List Char)
    (registered : List (List Char)) (lang : Option (List Char))
    (code : List Char) : List Char :=
  ("<pre class=\"highlight\"><code class=\"language-").data
    ++ pyFormat lang ++ ("\">").data
    ++ hlight (lexerFor registered lang) code
    ++ ("</code></pre>").data

/-- Embedding of `CODE_RE.sub(md_codeblock, md)`, the body of
`md_highlight`: repeatedly take the leftmost match at or after the current
offset, emit the text before it unchanged followed by the replacement, and
continue just past the match; when no match remains, emit the rest
unchanged.  Fuel bounds the number of replacements (each match consumes at
least seven characters, so `s.length + 1` always suffices). -/
def md_highlight_aux (hlight : Lexer → List Char → List Char)
    (registered : List (List Char)) (s : List Char) (pos : Nat) :
    Nat → List Char
  | 0 => extract s pos s.length
  | fuel + 1 =>
    match findMatchFrom s pos with
    | none => extract s pos s.length
    | some (a, m) =>
      extract s pos a ++ md_codeblock hlight registered m.tag m.body
        ++ md_highlight_aux hlight registered s m.stop fuel

/-- Embedding of `md_highlight` from `md2zd.py`. -/
def md_highlight (hlight : Lexer → List Char → List Char)
    (registered : List (List Char)) (md : List Char) : List Char :=
  md_highlight_aux hlight registered md 0 (md.length + 1)

/-- One segment of the substitution's decomposition of the input: either a
stretch of text outside every match (passed through unchanged), or one
match (tag, body, and the raw matched span of the input). -/
inductive Seg where
  | gap (text : List Char)
  | fence (tag : Option (List Char)) (body : List Char) (raw : List Char)
  deriving DecidableEq, Repr

/-- The input characters a segment covers. -/
def inputSeg : Seg → List Char
  | .gap t => t
  | .fence _ _ raw => raw

/-- The output a segment contributes: gaps pass through unchanged, each
match becomes exactly one wrapped highlighted block. -/
def renderSeg (hlight : Lexer → List Char → List Char)
    (registered : List (List Char)) : Seg → List Char
  | .gap t => t
  | .fence tag body _ => md_codeblock hlight registered tag body

/-- Is the segment a matched fence. -/
def isFence : Seg → Bool
  | .gap _ => false
  | .fence _ _ _ => true

/-- Structured trace of the same scan as `md_highlight_aux`: the list of
gaps and matches, in document order. -/
def subSegsAux (s : List Char) (pos : Nat) : Nat → List Seg
  | 0 => [Seg.gap (extract s pos s.length)]
  | fuel + 1 =>
    match findMatchFrom s pos with
    | none => [Seg.gap (extract s pos s.length)]
    | some (a, m) =>
      Seg.gap (extract s pos a) :: Seg.fence m.tag m.body (extract s a m.stop)
        :: subSegsAux s m.stop fuel

/-- The decomposition of a document induced by `CODE_RE.sub`. -/
def subSegs (s : List Char) : List Seg :=
  subSegsAux s 0 (s.length + 1)

/-- Concatenation of a list of character lists. -/
def joinList : List (List Char) → List Char
  | [] => []
  | x :: xs => x ++ joinList xs

/-- The renderer configuration of `md2zd.py`:
`CMARK_FLAGS = 132096  # UNSAFE = 1 << 17; SMART = 1 << 10`. -/
def CMARK_FLAGS : Nat := 132096

/-- Embedding of `md_parse`: a single call into the external renderer
`cmarkgfm.markdown_to_html` (the parameter `cmark`) with the constant
flag word. -/
def md_parse (cmark : List Char → Nat → List Char) (md : List Char) : List Char :=
  cmark md CMARK_FLAGS

/-- Embedding of `md_highlight_and_parse`: highlight, then parse. -/
def md_highlight_and_parse (cmark : List Char → Nat → List Char)
    (hlight : Lexer → List Char → List Char) (registered : List (List Char))
    (md : List Char) : List Char :=
  md_parse cmark (md_highlight hlight registered md)

/-- The keyword options `md2zd.py` passes to `tidy.parseString`. -/
structure TidyOptions where
  indent : String
  show_body_only : Nat
  tidy_mark : Nat
  deriving DecidableEq, Repr

/-- The literal options of the source: `indent="auto", show_body_only=1,
tidy_mark=0`. -/
def tidyConfig : TidyOptions := ⟨"auto", 1, 0⟩

/-- Embedding of `tidy_html`: one call into the external tidier (the
parameter `tidyParse` models `tidy.parseString` composed with `str`). -/
def tidy_html (tidyParse : List Char → TidyOptions → List Char)
    (html : List Char) : List Char :=
  tidyParse html tidyConfig

/-- Embedding of the pipeline body of `md2kb` (after the file read): the
string it prints for a file whose text is `fileText`. -/
def md2kb (tidyParse : List Char → TidyOptions → List Char)
    (cmark : List Char → Nat → List Char)
    (hlight : Lexer → List Char → List Char) (registered : List (List Char))
    (fileText : List Char) : List Char :=
  tidy_html tidyParse (md_highlight_and_parse cmark hlight registered fileText)

/-- A concrete highlighter instance (identity on the body) used for
closed witness statements. -/
def hl0 : Lexer → List Char → List Char := fun _ c => c

/-- A concrete lexer registry used for closed witness statements. -/
def reg0 : List (List Char) := [("python").data]

/-- A document with two fences in sequence, separated by plain text (the
shape of the spec's non-greediness test). -/
def twoFenceDoc : List Char := ("```a\nX\n```\nplain\n```b\nY\n```\n").data

/-- A document with no fence and no backtick at all. -/
def noFenceDoc : List Char := ("hello\nworld\n").data

/-- A document whose triple backticks all occur mid-line. -/
def midTickDoc : List Char := ("text ``` mid\nmore ```python here\n").data

/-- A document that is a single unterminated fence. -/
def untermDoc : List Char := ("```python\nprint(1)\n").data

/-- A document with one complete fence followed by an unterminated
opening fence line. -/
def untermTrapDoc : List Char := ("```\na\n```\n```python\nx").data

/-- A single well-formed fence whose lines end in CRLF. -/
def crlfDoc : List Char := ("```python\r\nx\r\n```\r\n").data

/-- An index that holds a character is inside the list. -/
theorem get?_some_lt {l : List Char} {n : Nat} {a : Char}
    (h : l.get? n = some a) : n < l.length := by
  by_contra hn
  rw [List.get?_eq_none.mpr (by omega)] at h
  exact Option.noConfusion h

/-- Unfolding of a successful three-backtick test. -/
theorem hasTicksAt_elim {s : List Char} {a : Nat} (h : hasTicksAt s a = true) :
    s.get? a = some backtickChar ∧ s.get? (a + 1) = some backtickChar ∧
      s.get? (a + 2) = some backtickChar := by
  simpa [hasTicksAt, Bool.and_eq_true, beq_iff_eq, and_assoc] using h

/-- A three-backtick literal needs three characters of room. -/
theorem hasTicksAt_le {s : List Char} {a : Nat} (h : hasTicksAt s a = true) :
    a + 3 ≤ s.length := by
  have h3 := (hasTicksAt_elim h).2.2
  have := get?_some_lt h3
  omega

/-- Unfolding of a successful closing-line test. -/
theorem closesAtB_elim {s : List Char} {p : Nat} (h : closesAtB s p = true) :
    lineStartB s p = true ∧ hasTicksAt s p = true ∧ lineEndB s (p + 3) = true := by
  simpa [closesAtB, Bool.and_eq_true, and_assoc] using h

/-- A closing line needs three characters of room. -/
theorem closesAtB_le {s : List Char} {p : Nat} (h : closesAtB s p = true) :
    p + 3 ≤ s.length :=
  hasTicksAt_le (closesAtB_elim h).2.1

/-- Unfolding of a successful opening-line test. -/
theorem openingLineAtB_elim {s : List Char} {a : Nat}
    (h : openingLineAtB s a = true) :
    lineStartB s a = true ∧ hasTicksAt s a = true ∧
      lineEndB s (openEnd s a) = true := by
  simpa [openingLineAtB, Bool.and_eq_true, and_assoc] using h

/-- What a successful close search yields: the first closing position at
or after the start of the search. -/
theorem findClose_some {s : List Char} :
    ∀ {fuel p q : Nat}, findClose s p fuel = some q →
      p ≤ q ∧ closesAtB s q = true ∧
        ∀ r, p ≤ r → r < q → closesAtB s r = false := by
  intro fuel
  induction fuel with
  | zero => intro p q h; simp [findClose] at h
  | succ n ih =>
    intro p q h
    cases hc : closesAtB s p with
    | true =>
      rw [findClose, if_pos hc] at h
      have hq : p = q := Option.some.inj h
      subst hq
      exact ⟨Nat.le_refl p, hc, fun r h1 h2 => absurd (Nat.lt_of_le_of_lt h1 h2) (Nat.lt_irrefl p)⟩
    | false =>
      rw [findClose, if_neg (by simp [hc])] at h
      obtain ⟨h1, h2, h3⟩ := ih h
      refine ⟨by omega, h2, fun r hr1 hr2 => ?_⟩
      rcases Nat.eq_or_lt_of_le hr1 with hr | hr
      · exact hr ▸ hc
      · exact h3 r (by omega) hr2

/-- The close search finds a closing position whenever one exists within
its fuel. -/
theorem findClose_complete {s : List Char} :
    ∀ {fuel p q : Nat}, p ≤ q → q < p + fuel → closesAtB s q = true →
      ∃ r, findClose s p fuel = some r ∧ r ≤ q := by
  intro fuel
  induction fuel with
  | zero => intro p q h1 h2 _; omega
  | succ n ih =>
    intro p q h1 h2 hq
    cases hc : closesAtB s p with
    | true => exact ⟨p, by rw [findClose, if_pos hc], h1⟩
    | false =>
      have hpq : p ≠ q := fun he => by rw [he, hq] at hc; exact Bool.noConfusion hc
      obtain ⟨r, hr1, hr2⟩ := ih (p := p + 1) (q := q) (by omega) (by omega) hq
      exact ⟨r, by rw [findClose, if_neg (by simp [hc])]; exact hr1, hr2⟩

/-- What a successful leftmost-match scan yields. -/
theorem findMatchAux_some {s : List Char} :
    ∀ {fuel pos a : Nat} {m : PyMatch}, findMatchAux s pos fuel = some (a, m) →
      pos ≤ a ∧ matchAt s a = some m := by
  intro fuel
  induction fuel with
  | zero => intro pos a m h; simp [findMatchAux] at h
  | succ n ih =>
    intro pos a m h
    cases hma : matchAt s pos with
    | some m' =>
      rw [findMatchAux, hma] at h
      have h1 : pos = a ∧ m' = m := by
        have := Option.some.inj h
        exact ⟨congrArg Prod.fst this, congrArg Prod.snd this⟩
      obtain ⟨he, hm⟩ := h1
      subst he; subst hm
      exact ⟨Nat.le_refl pos, hma⟩
    | none =>
      rw [findMatchAux, hma] at h
      obtain ⟨h1, h2⟩ := ih h
      exact ⟨by omega, h2⟩

/-- The scan reports no match when no offset in its range matches. -/
theorem findMatchAux_none {s : List Char} :
    ∀ {fuel pos : Nat}, (∀ x, pos ≤ x → x < pos + fuel → matchAt s x = none) →
      findMatchAux s pos fuel = none := by
  intro fuel
  induction fuel with
  | zero => intro pos _; simp [findMatchAux]
  | succ n ih =>
    intro pos h
    rw [findMatchAux, h pos (Nat.le_refl pos) (by omega)]
    exact ih fun x h1 h2 => h x (by omega) (by omega)

/-- Inversion of a successful match of `CODE_RE` at an offset. -/
theorem matchAt_elim {s : List Char} {a : Nat} {m : PyMatch}
    (h : matchAt s a = some m) :
    openingLineAtB s a = true ∧
      ∃ p, findClose s (openEnd s a + 1) (s.length + 1) = some p ∧
        m = ⟨tagAt s a, extract s (openEnd s a) p, p + 3⟩ := by
  unfold matchAt at h
  cases ho : openingLineAtB s a with
  | false => rw [if_neg (by simp [ho])] at h; exact Option.noConfusion h
  | true =>
    rw [if_pos ho] at h
    cases hfc : findClose s (openEnd s a + 1) (s.length + 1) with
    | none => rw [hfc] at h; exact Option.noConfusion h
    | some p =>
      rw [hfc] at h
      exact ⟨rfl, p, rfl, (Option.some.inj h).symm⟩

/-- Every match spans at least seven characters and ends inside the
string; its start leaves room for the three opening backticks. -/
theorem matchAt_bounds {s : List Char} {a : Nat} {m : PyMatch}
    (h : matchAt s a = some m) :
    a + 7 ≤ m.stop ∧ m.stop ≤ s.length ∧ a + 3 ≤ s.length := by
  obtain ⟨ho, p, hfc, hm⟩ := matchAt_elim h
  obtain ⟨hp1, hp2, _⟩ := findClose_some hfc
  have hps := closesAtB_le hp2
  have hts := hasTicksAt_le (openingLineAtB_elim ho).2.1
  have hoe : a + 3 ≤ openEnd s a := by unfold openEnd; omega
  rw [hm]
  exact ⟨by simp; omega, by simp; omega, hts⟩

/-- No match can start past the end of the string. -/
theorem matchAt_none_of_gt {s : List Char} {a : Nat} (h : s.length < a) :
    matchAt s a = none := by
  have ht : hasTicksAt s a = false := by
    unfold hasTicksAt
    rw [List.get?_eq_none.mpr (show s.length ≤ a by omega)]
    rfl
  have ho : openingLineAtB s a = false := by
    simp [openingLineAtB, ht]
  simp [matchAt, ho]

/-- What a successful leftmost match from an offset yields. -/
theorem findMatchFrom_some {s : List Char} {pos a : Nat} {m : PyMatch}
    (h : findMatchFrom s pos = some (a, m)) :
    pos ≤ a ∧ matchAt s a = some m := by
  unfold findMatchFrom at h
  exact findMatchAux_some h

/-- When no offset of the string matches, the scan from any offset finds
nothing. -/
theorem findMatchFrom_none {s : List Char}
    (h : ∀ x, x ≤ s.length → matchAt s x = none) (pos : Nat) :
    findMatchFrom s pos = none := by
  unfold findMatchFrom
  apply findMatchAux_none
  intro x h1 h2
  by_cases hx : x ≤ s.length
  · exact h x hx
  · exact matchAt_none_of_gt (by omega)

/-- Adjacent slices concatenate to the enclosing slice. -/
theorem extract_append {s : List Char} {p a b : Nat} (h1 : p ≤ a) (h2 : a ≤ b) :
    extract s p a ++ extract s a b = extract s p b := by
  unfold extract
  have hd : s.drop a = (s.drop p).drop (a - p) := by
    rw [List.drop_drop]
    congr 1
    omega
  rw [hd]
  have hb : b - p = (a - p) + (b - a) := by omega
  rw [hb, List.take_add]

/-- The full slice of a string is the string. -/
theorem extract_all (s : List Char) : extract s 0 s.length = s := by
  simp [extract]

/-- A nonempty maximal lowercase run ends in a lowercase character. -/
theorem runLen_last : ∀ {l : List Char}, 0 < runLen l →
    ∃ c, l.get? (runLen l - 1) = some c ∧ isLowerAZ c = true := by
  intro l
  induction l with
  | nil => intro h; simp [runLen] at h
  | cons c cs ih =>
    intro h
    cases hc : isLowerAZ c with
    | false => rw [runLen, if_neg (by simp [hc])] at h; omega
    | true =>
      have hrun : runLen (c :: cs) = runLen cs + 1 := by
        rw [runLen, if_pos hc]
      rcases Nat.eq_zero_or_pos (runLen cs) with h0 | hpos
      · exact ⟨c, by rw [hrun, h0]; rfl, hc⟩
      · obtain ⟨d, hd1, hd2⟩ := ih hpos
        refine ⟨d, ?_, hd2⟩
        rw [hrun]
        have hm : runLen cs + 1 - 1 = (runLen cs - 1) + 1 := by omega
        rw [hm, List.get?_cons_succ]
        exact hd1

/-- Reconstruction: the input slices covered by the scan's segments,
concatenated in order, give back the scanned suffix of the document. -/
theorem subSegsAux_input {s : List Char} :
    ∀ fuel pos, pos ≤ s.length → s.length + 1 ≤ pos + fuel →
      joinList ((subSegsAux s pos fuel).map inputSeg) = extract s pos s.length := by
  intro fuel
  induction fuel with
  | zero => intro pos h1 h2; omega
  | succ n ih =>
    intro pos h1 h2
    cases hfm : findMatchFrom s pos with
    | none => simp [subSegsAux, hfm, joinList, inputSeg]
    | some am =>
      obtain ⟨a, m⟩ := am
      obtain ⟨hpa, hma⟩ := findMatchFrom_some hfm
      obtain ⟨hb1, hb2, _⟩ := matchAt_bounds hma
      simp only [subSegsAux, hfm, List.map, joinList, inputSeg]
      rw [ih m.stop (by omega) (by omega)]
      rw [extract_append (show a ≤ m.stop by omega) (show m.stop ≤ s.length by omega)]
      rw [extract_append (show pos ≤ a by omega) (show a ≤ s.length by omega)]

/-- The direct substitution scan and its structured trace agree: the
output is the concatenation of the rendered segments. -/
theorem md_highlight_aux_eq_segs {hlight : Lexer → List Char → List Char}
    {registered : List (List Char)} {s : List Char} :
    ∀ fuel pos, md_highlight_aux hlight registered s pos fuel
      = joinList ((subSegsAux s pos fuel).map (renderSeg hlight registered)) := by
  intro fuel
  induction fuel with
  | zero => intro pos; simp [md_highlight_aux, subSegsAux, joinList, renderSeg]
  | succ n ih =>
    intro pos
    cases hfm : findMatchFrom s pos with
    | none => simp [md_highlight_aux, subSegsAux, hfm, joinList, renderSeg]
    | some am =>
      obtain ⟨a, m⟩ := am
      simp only [md_highlight_aux, subSegsAux, hfm, List.map, joinList, renderSeg]
      rw [ih, List.append_assoc]

/-- A document in which no offset matches `CODE_RE` passes through the
substitution unchanged. -/
theorem md_highlight_of_no_match {hlight : Lexer → List Char → List Char}
    {registered : List (List Char)} {s : List Char}
    (h : ∀ x, x ≤ s.length → matchAt s x = none) :
    md_highlight hlight registered s = s := by
  unfold md_highlight
  rw [md_highlight_aux, findMatchFrom_none h 0]
  exact extract_all s

/-- An opening line with no closing line after it anywhere in the
document yields no match at that offset. -/
theorem matchAt_none_of_unterminated {s : List Char} {a : Nat}
    (h : ∀ q, q ≤ s.length → openEnd s a < q → closesAtB s q = false) :
    matchAt s a = none := by
  unfold matchAt
  cases ho : openingLineAtB s a with
  | false => rw [if_neg (by simp [ho])]
  | true =>
    rw [if_pos (by simp [ho])]
    cases hfc : findClose s (openEnd s a + 1) (s.length + 1) with
    | none => rfl
    | some p =>
      exfalso
      obtain ⟨hp1, hp2, _⟩ := findClose_some hfc
      have hps := closesAtB_le hp2
      have := h p (by omega) (by omega)
      rw [this] at hp2
      exact Bool.noConfusion hp2

/-- An opening line that is followed by some closing line matches, and
the body ends at the first closing line after the opening line. -/
theorem matchAt_of_close {s : List Char} {a q : Nat}
    (ho : openingLineAtB s a = true) (h2 : openEnd s a < q)
    (h3 : closesAtB s q = true) :
    ∃ p, findClose s (openEnd s a + 1) (s.length + 1) = some p ∧
      matchAt s a = some ⟨tagAt s a, extract s (openEnd s a) p, p + 3⟩ ∧
      openEnd s a < p ∧ p ≤ q ∧ closesAtB s p = true ∧
      ∀ r, openEnd s a < r → r < p → closesAtB s r = false := by
  have hql := closesAtB_le h3
  obtain ⟨p, hp, hpq⟩ :=
    findClose_complete (show openEnd s a + 1 ≤ q by omega)
      (show q < (openEnd s a + 1) + (s.length + 1) by omega) h3
  obtain ⟨hp1, hp2, hp3⟩ := findClose_some hp
  refine ⟨p, hp, ?_, by omega, hpq, hp2, fun r hr1 hr2 => hp3 r (by omega) hr2⟩
  unfold matchAt
  rw [if_pos (by simp [ho]), hp]

/-- In a document whose newlines are all preceded by a carriage return,
`CODE_RE` matches nowhere: the `$` after the optional language tag can
only sit before a newline or at the end of the string, but the character
before such a newline is a carriage return, while the opening line puts a
backtick or a lowercase letter there; and an opening line at the very end
of the string leaves no room for a body and a closing line. -/
theorem matchAt_none_of_crlf {s : List Char}
    (h : ∀ i, i < s.length → s.get? (i + 1) = some '\n' → s.get? i = some '\r')
    (a : Nat) : matchAt s a = none := by
  unfold matchAt
  cases ho : openingLineAtB s a with
  | false => rw [if_neg (by simp [ho])]
  | true =>
    rw [if_pos (by simp [ho])]
    obtain ⟨hls, hticks, hle⟩ := openingLineAtB_elim ho
    have hle2 : openEnd s a = s.length ∨ s.get? (openEnd s a) = some '\n' := by
      simpa [lineEndB, Bool.or_eq_true, beq_iff_eq] using hle
    rcases hle2 with hend | hnl
    · cases hfc : findClose s (openEnd s a + 1) (s.length + 1) with
      | none => rfl
      | some p =>
        exfalso
        obtain ⟨hp1, hp2, _⟩ := findClose_some hfc
        have := closesAtB_le hp2
        omega
    · exfalso
      have hlt : openEnd s a < s.length := get?_some_lt hnl
      have hge : 3 ≤ openEnd s a := by unfold openEnd; omega
      have hcr : s.get? (openEnd s a - 1) = some '\r' := by
        have hh := h (openEnd s a - 1) (by omega)
        rw [show openEnd s a - 1 + 1 = openEnd s a by omega] at hh
        exact hh hnl
      rcases Nat.eq_zero_or_pos (runLen (s.drop (a + 3))) with h0 | hpos
      · have h2 : s.get? (a + 2) = some backtickChar := (hasTicksAt_elim hticks).2.2
        have he : openEnd s a - 1 = a + 2 := by
          unfold openEnd at hge hlt ⊢
          omega
        rw [he, h2] at hcr
        exact absurd (Option.some.inj hcr) (by decide)
      · obtain ⟨c, hc1, hc2⟩ := runLen_last hpos
        rw [List.get?_drop] at hc1
        have he : a + 3 + (runLen (s.drop (a + 3)) - 1) = openEnd s a - 1 := by
          unfold openEnd
          omega
        rw [he, hcr] at hc1
        rw [← Option.some.inj hc1] at hc2
        exact absurd hc2 (by decide)

/-- Claim C1: for every Markdown document, `md_highlight` output is the
in-order concatenation of the scan's segments, where every matched fence
contributes exactly one highlighted-block wrapper element (a
`pre class="highlight"` block) and every character outside the matched
fence spans appears unchanged, byte for byte and in document order (the
input is exactly the concatenation of the gaps and the raw matched
spans).  With N matched fences the decomposition has exactly N fence
segments, so the output carries exactly N wrapper blocks, one per
matched fence.  Proved for all documents, hence in particular for those
with only well-formed fences. -/
theorem claim_C1 (hlight : Lexer → List Char → List Char)
    (registered : List (List Char)) (s : List Char) :
    md_highlight hlight registered s
        = joinList ((subSegs s).map (renderSeg hlight registered))
      ∧ joinList ((subSegs s).map inputSeg) = s
      ∧ ∀ seg ∈ subSegs s, isFence seg = true →
          ∃ t b raw, seg = Seg.fence t b raw ∧
            renderSeg hlight registered seg
              = ("<pre class=\"highlight\"><code class=\"language-").data
                  ++ pyFormat t ++ ("\">").data
                  ++ hlight (lexerFor registered t) b ++ ("</code></pre>").data := by
  refine ⟨?_, ?_, ?_⟩
  · unfold md_highlight subSegs
    exact md_highlight_aux_eq_segs (s.length + 1) 0
  · unfold subSegs
    rw [subSegsAux_input (s.length + 1) 0 (by omega) (by omega)]
    exact extract_all s
  · intro seg _ hf
    cases seg with
    | gap t => simp [isFence] at hf
    | fence t b raw => exact ⟨t, b, raw, rfl, rfl⟩

/-- Witness for C1 at a concrete two-fence document. -/
theorem claim_C1_witness :
    md_highlight hl0 reg0 twoFenceDoc
        = joinList ((subSegs twoFenceDoc).map (renderSeg hl0 reg0))
      ∧ joinList ((subSegs twoFenceDoc).map inputSeg) = twoFenceDoc :=
  ⟨(claim_C1 hl0 reg0 twoFenceDoc).1, (claim_C1 hl0 reg0 twoFenceDoc).2.1⟩

/-- Counterexample to claim C2 as stated: a fence with no language tag
does not produce a `language-` class with empty suffix; the Python
f-string interpolates the absent group (`None`) as the literal text
`None`, so the class is `language-None`. -/
theorem counterexample_C2 :
    md_codeblock hl0 reg0 none (("x").data)
        = ("<pre class=\"highlight\"><code class=\"language-None\">x</code></pre>").data
      ∧ ¬ md_codeblock hl0 reg0 none (("x").data)
          = ("<pre class=\"highlight\"><code class=\"language-\">x</code></pre>").data := by
  exact ⟨by decide, by decide⟩

/-- Claim C2 as amended: a fence tagged `python` yields a code element of
class `language-python`; a fence with no tag yields class
`language-None` (the Python rendering of the absent group), not
`language-` with an empty suffix and not an error. -/
theorem claim_C2 (hlight : Lexer → List Char → List Char)
    (registered : List (List Char)) (body : List Char) :
    md_codeblock hlight registered (some (("python").data)) body
        = ("<pre class=\"highlight\"><code class=\"language-python\">").data
            ++ hlight (lexerFor registered (some (("python").data))) body
            ++ ("</code></pre>").data
      ∧ md_codeblock hlight registered none body
        = ("<pre class=\"highlight\"><code class=\"language-None\">").data
            ++ hlight Lexer.text body ++ ("</code></pre>").data :=
  ⟨rfl, rfl⟩

/-- Claim C3: matching is non-greedy across the body.  Whenever an
opening fence line is followed by some closing triple-backtick line, the
match at the opening offset ends at the first such closing line (no
earlier candidate is skipped, and the body stops there); and the
two-fence document decomposes into exactly two separate wrapped blocks,
never one block spanning both fences. -/
theorem claim_C3 (s : List Char) (a q : Nat)
    (ho : openingLineAtB s a = true) (h2 : openEnd s a < q)
    (h3 : closesAtB s q = true) :
    (∃ p, findClose s (openEnd s a + 1) (s.length + 1) = some p ∧
        matchAt s a = some ⟨tagAt s a, extract s (openEnd s a) p, p + 3⟩ ∧
        openEnd s a < p ∧ p ≤ q ∧ closesAtB s p = true ∧
        ∀ r, openEnd s a < r → r < p → closesAtB s r = false)
      ∧ subSegs twoFenceDoc =
          [Seg.gap [],
           Seg.fence (some (("a").data)) (("\nX\n").data) (("```a\nX\n```").data),
           Seg.gap (("\nplain\n").data),
           Seg.fence (some (("b").data)) (("\nY\n").data) (("```b\nY\n```").data),
           Seg.gap (("\n").data)] :=
  ⟨matchAt_of_close ho h2 h3, by decide⟩

/-- Witness for C3 at the concrete two-fence document: fence A's match
runs from offset 0 to the first closing line (offset 7, so the match
stops at 10), and the document splits into exactly two fence
segments. -/
theorem claim_C3_witness :
    matchAt twoFenceDoc 0 = some ⟨some (("a").data), ("\nX\n").data, 10⟩
      ∧ (subSegs twoFenceDoc).countP isFence = 2 := by
  obtain ⟨⟨p, hp, hm, _, _, _, _⟩, hsegs⟩ :=
    claim_C3 twoFenceDoc 0 7 (by decide) (by decide) (by decide)
  have hp7 : p = 7 := by
    rw [show findClose twoFenceDoc (openEnd twoFenceDoc 0 + 1) (twoFenceDoc.length + 1)
        = some 7 from by decide] at hp
    exact (Option.some.inj hp).symm
  subst hp7
  exact ⟨by rw [hm]; decide, by rw [hsegs]; decide⟩

/-- Claim C4: a fence tagged with an unregistered language identifier
still produces a wrapped output block (the lookup failure is caught, no
exception escapes), the body is highlighted with the plain-text fallback
lexer, and the code element carries the literal unrecognized tag in its
class attribute. -/
theorem claim_C4 (hlight : Lexer → List Char → List Char)
    (registered : List (List Char)) (t body : List Char)
    (h : t ∉ registered) :
    md_codeblock hlight registered (some t) body
        = ("<pre class=\"highlight\"><code class=\"language-").data ++ t
            ++ ("\">").data ++ hlight Lexer.text body ++ ("</code></pre>").data
      ∧ lexerFor registered (some t) = Lexer.text := by
  have hlf : lexerFor registered (some t) = Lexer.text := by
    simp [lexerFor, get_lexer_by_name, h]
  exact ⟨by simp [md_codeblock, hlf, pyFormat], hlf⟩

/-- Witness for C4 with the unregistered tag `zzzzz`. -/
theorem claim_C4_witness :
    md_codeblock hl0 reg0 (some (("zzzzz").data)) (("x").data)
        = ("<pre class=\"highlight\"><code class=\"language-").data ++ ("zzzzz").data
            ++ ("\">").data ++ hl0 Lexer.text (("x").data) ++ ("</code></pre>").data
      ∧ lexerFor reg0 (some (("zzzzz").data)) = Lexer.text :=
  claim_C4 hl0 reg0 (("zzzzz").data) (("x").data) (by decide)

/-- Claim C5: the pipeline composes fence extraction, Markdown rendering
and HTML tidying in strict order, each stage consuming the complete
output of the previous stage; the printed output for input text `md` is
`tidy_html (md_parse (md_highlight md))`, that is, the tidier applied to
the renderer (with the constant flag word) applied to the extractor. -/
theorem claim_C5 (tidyParse : List Char → TidyOptions → List Char)
    (cmark : List Char → Nat → List Char)
    (hlight : Lexer → List Char → List Char) (registered : List (List Char))
    (md : List Char) :
    md2kb tidyParse cmark hlight registered md
        = tidy_html tidyParse (md_parse cmark (md_highlight hlight registered md))
      ∧ md2kb tidyParse cmark hlight registered md
        = tidyParse (cmark (md_highlight hlight registered md) CMARK_FLAGS) tidyConfig :=
  ⟨rfl, rfl⟩

/-- Claim C6: a document in which no substring matches the fence pattern
is returned by `md_highlight` unchanged. -/
theorem claim_C6 (hlight : Lexer → List Char → List Char)
    (registered : List (List Char)) (s : List Char)
    (h : ∀ a, a ≤ s.length → matchAt s a = none) :
    md_highlight hlight registered s = s :=
  md_highlight_of_no_match h

/-- Witness for C6 at a concrete fence-free document. -/
theorem claim_C6_witness : md_highlight hl0 reg0 noFenceDoc = noFenceDoc :=
  claim_C6 hl0 reg0 noFenceDoc (by decide)

/-- Claim C7: fence delimiters are recognized only as full lines.  At any
offset that is not a line start, the pattern neither opens a fence (no
match starts there) nor closes one (the closing-line test fails there);
a concrete document whose triple backticks all occur mid-line passes
through `md_highlight` unchanged. -/
theorem claim_C7 (hlight : Lexer → List Char → List Char)
    (registered : List (List Char)) (s : List Char) (a : Nat)
    (h : lineStartB s a = false) :
    (matchAt s a = none ∧ closesAtB s a = false)
      ∧ md_highlight hlight registered midTickDoc = midTickDoc := by
  refine ⟨⟨?_, ?_⟩, ?_⟩
  · have ho : openingLineAtB s a = false := by simp [openingLineAtB, h]
    simp [matchAt, ho]
  · simp [closesAtB, lineStartB] at h ⊢
    simp [h]
  · rfl

/-- Witness for C7 at a mid-line backtick offset of a concrete document. -/
theorem claim_C7_witness :
    (matchAt midTickDoc 5 = none ∧ closesAtB midTickDoc 5 = false)
      ∧ md_highlight hl0 reg0 midTickDoc = midTickDoc :=
  claim_C7 hl0 reg0 midTickDoc 5 (by decide)

/-- Claim C8: the renderer flag constant 132096 is exactly the bitwise OR
of the raw-HTML-passthrough flag (1 shifted left 17, 131072) and the
smart-punctuation flag (1 shifted left 10, 1024), and no other bit of it
is set. -/
theorem claim_C8 :
    CMARK_FLAGS = Nat.shiftLeft 1 17 + Nat.shiftLeft 1 10
      ∧ CMARK_FLAGS = Nat.lor (Nat.shiftLeft 1 17) (Nat.shiftLeft 1 10)
      ∧ Nat.shiftLeft 1 17 = 131072 ∧ Nat.shiftLeft 1 10 = 1024
      ∧ ∀ i : Nat, CMARK_FLAGS.testBit i = true ↔ (i = 17 ∨ i = 10) := by
  refine ⟨by decide, by decide, by decide, by decide, ?_⟩
  intro i
  by_cases hi : i < 18
  · interval_cases i <;> decide
  · have hf : CMARK_FLAGS.testBit i = false := by
      apply Nat.testBit_lt_two_pow
      calc CMARK_FLAGS < 2 ^ 18 := by decide
        _ ≤ 2 ^ i := Nat.pow_le_pow_right (by omega) (by omega)
    constructor
    · intro hT
      rw [hf] at hT
      exact Bool.noConfusion hT
    · intro hor
      rcases hor with h17 | h10 <;> omega

/-- Counterexample to claim C9 as stated: this document contains an
opening fence line (at offset 10, tagged `python`) with no closing
triple-backtick line anywhere after it, yet `md_highlight` does not
return the input unchanged, because an earlier complete fence is still
extracted. -/
theorem counterexample_C9 :
    (openingLineAtB untermTrapDoc 10 = true
      ∧ ∀ q, q ≤ untermTrapDoc.length → openEnd untermTrapDoc 10 < q →
          closesAtB untermTrapDoc q = false)
      ∧ md_highlight hl0 reg0 untermTrapDoc ≠ untermTrapDoc :=
  ⟨⟨by decide, by decide⟩, by decide⟩

/-- Claim C9 as amended: if every opening fence line of the document is
unterminated (no closing triple-backtick line anywhere after it), then
`md_highlight` returns the input unchanged — the unterminated fences are
silently left as plain Markdown text rather than extracted, truncated,
or reported as an error. -/
theorem claim_C9 (hlight : Lexer → List Char → List Char)
    (registered : List (List Char)) (s : List Char)
    (h : ∀ a, a ≤ s.length → openingLineAtB s a = true →
        ∀ q, q ≤ s.length → openEnd s a < q → closesAtB s q = false) :
    md_highlight hlight registered s = s := by
  apply md_highlight_of_no_match
  intro a ha
  cases ho : openingLineAtB s a with
  | true => exact matchAt_none_of_unterminated (h a ha ho)
  | false => simp [matchAt, ho]

/-- Witness for amended C9 at a concrete unterminated-fence document. -/
theorem claim_C9_witness : md_highlight hl0 reg0 untermDoc = untermDoc :=
  claim_C9 hl0 reg0 untermDoc (by decide)

/-- Claim C10: in a document whose lines are terminated with CRLF (every
newline is preceded by a carriage return), no fence is ever matched —
the line-end anchor cannot match before the carriage return — and the
whole document is returned unchanged. -/
theorem claim_C10 (hlight : Lexer → List Char → List Char)
    (registered : List (List Char)) (s : List Char)
    (h : ∀ i, i < s.length → s.get? (i + 1) = some '\n' → s.get? i = some '\r') :
    (∀ a, matchAt s a = none) ∧ md_highlight hlight registered s = s := by
  have hm : ∀ a, matchAt s a = none := matchAt_none_of_crlf h
  exact ⟨hm, md_highlight_of_no_match fun x _ => hm x⟩

/-- Witness for C10 at a concrete CRLF document. -/
theorem claim_C10_witness :
    matchAt crlfDoc 0 = none ∧ md_highlight hl0 reg0 crlfDoc = crlfDoc :=
  ⟨(claim_C10 hl0 reg0 crlfDoc (by decide)).1 0,
   (claim_C10 hl0 reg0 crlfDoc (by decide)).2⟩

end Md2zd
